import Mathlib

/-!
A shallow embedding of the krane-cli mirroring pipeline (Go sources:
`pkg/utils` filtering, `pkg/ecr/client.go` name translation, `cmd/push.go`
job building, worker pool and aggregation), together with proofs of the
behavioural claims about it.

Go strings are modelled as `List Char` (`Str`); Go's standard-library
string helpers used by the code (`strings.Split`, `strings.Index`,
`strings.LastIndex`, `strings.TrimSpace`, `strings.HasPrefix`,
`strings.Contains`, `strings.Join`, `strings.ToLower`,
`strings.ReplaceAll`) are implemented below on that model.  `regexp`
compilation and matching are kept abstract as an oracle
`RegexOracle : Str → Option (Str → Bool)`: `none` models a pattern that
fails to compile, `some f` a compiled regular expression whose
`MatchString` is `f`.  External services (AWS ECR, Kubernetes, the
registry copy) are oracles in an `Env` record; fallible Go calls return
`Except Str`.
-/

/-- Go strings, modelled as lists of characters. -/
abbrev Str := List Char

/-- Converts a Lean string literal to the `Str` model. -/
def str (s : String) : Str := s.data

namespace krane

/-! ## Go standard-library string helpers -/

/-- Accumulator form of `strings.Split` with a single-character
separator: `acc` holds the (reversed) current field. -/
def splitOnCharAux (c : Char) : Str → Str → List Str
  | [], acc => [acc.reverse]
  | x :: xs, acc =>
      if x = c then acc.reverse :: splitOnCharAux c xs []
      else splitOnCharAux c xs (x :: acc)

/-- `strings.Split s c` for a one-character separator `c`. -/
def splitOnChar (c : Char) (s : Str) : List Str := splitOnCharAux c s []

/-- `strings.Index haystack needle`: index of the first occurrence of
`pat`, `none` when absent (Go returns -1). -/
def indexOfSub (pat : Str) : Str → Option Nat
  | [] => if pat.isPrefixOf ([] : Str) then some 0 else none
  | x :: xs =>
      if pat.isPrefixOf (x :: xs) then some 0
      else (indexOfSub pat xs).map (· + 1)

/-- `strings.LastIndex s c` for a one-character pattern: index of the
last occurrence of `c`, `none` when absent. -/
def lastIndexOfChar (c : Char) : Str → Option Nat
  | [] => none
  | x :: xs =>
      match lastIndexOfChar c xs with
      | some i => some (i + 1)
      | none => if x = c then some 0 else none

/-- The characters trimmed by Go's `strings.TrimSpace`
(`unicode.IsSpace`), restricted to the ones expressible in this model. -/
def isGoSpace (c : Char) : Bool :=
  c = ' ' || c = '\t' || c = '\n' || c = '\r' ||
  c = Char.ofNat 11 || c = Char.ofNat 12 ||
  c = Char.ofNat 0x85 || c = Char.ofNat 0xA0

/-- `strings.TrimSpace`. -/
def trimSpace (s : Str) : Str :=
  ((s.dropWhile isGoSpace).reverse.dropWhile isGoSpace).reverse

/-- `strings.Join parts "/"`. -/
def joinSlash : List Str → Str
  | [] => []
  | [p] => p
  | p :: ps => p ++ '/' :: joinSlash ps

/-! ## `pkg/utils`: include/exclude filtering (src/unnamed/part_004) -/

/-- Result of Go's `regexp.Compile`: `none` when compilation fails,
otherwise the compiled expression's `MatchString` function. -/
abbrev RegexOracle := Str → Option (Str → Bool)

/-- The `matcher` struct: either a compiled regex or a literal prefix
matcher (the struct's `isRegex` flag is the constructor tag here). -/
inductive GoMatcher where
  | regex (matchString : Str → Bool)
  | pre (p : Str)

/-- `matcher.match`: regex matchers use `MatchString`, prefix matchers
use `strings.HasPrefix`. -/
def matcherMatch : GoMatcher → Str → Bool
  | .regex f, s1 => f s1
  | .pre p, s1 => p.isPrefixOf s1

/-- Loop body of `compileMatchers`: trim each pattern, drop it if empty,
try to compile it as a regex, fall back to a literal prefix matcher. -/
def compileMatchersList (o : RegexOracle) : List Str → List GoMatcher
  | [] => []
  | p :: ps =>
      let q := trimSpace p
      if q = [] then compileMatchersList o ps
      else
        match o q with
        | some re => .regex re :: compileMatchersList o ps
        | none => .pre q :: compileMatchersList o ps

/-- `compileMatchers` (its `error` result is always `nil` in the
source; the `Except` mirrors the Go signature). -/
def compileMatchers (o : RegexOracle) (patterns : List Str) :
    Except Str (List GoMatcher) :=
  .ok (compileMatchersList o patterns)

/-- The per-image loop of `FilterImages`: skip an image when include
matchers exist and none matches, or when some exclude matcher matches. -/
def filterLoop (inc exc : List GoMatcher) : List Str → List Str
  | [] => []
  | img :: rest =>
      if inc.length > 0 && !(inc.any fun m => matcherMatch m img) then
        filterLoop inc exc rest
      else if exc.any fun m => matcherMatch m img then
        filterLoop inc exc rest
      else img :: filterLoop inc exc rest

/-- `FilterImages`: applies include/exclude patterns to filter image
names. -/
def FilterImages (o : RegexOracle) (images includes excludes : List Str) :
    Except Str (List Str) := do
  let incMatchers ← compileMatchers o includes
  let excMatchers ← compileMatchers o excludes
  .ok (filterLoop incMatchers excMatchers images)

/-- `RemoveDuplicates` with its `keys` set made explicit. -/
def removeDuplicatesAux (keys : List Str) : List Str → List Str
  | [] => []
  | x :: xs =>
      if x ∈ keys then removeDuplicatesAux keys xs
      else x :: removeDuplicatesAux (x :: keys) xs

/-- `RemoveDuplicates`: drops later duplicates, keeping first-seen
order. -/
def RemoveDuplicates (l : List Str) : List Str := removeDuplicatesAux [] l

/-! ## `pkg/ecr/client.go`: the destination-registry client

Only the pure parts are embedded (`GetRegistryURL`,
`validateECRRepositoryName`, `ConvertImageName`); the network-backed
methods (`CreateRepository`, `ImageTagExists`, `GetAuthToken`) are
oracles in `Env` below. -/

/-- The `Client` struct, restricted to the fields the pure code reads. -/
structure Client where
  accountID : Str
  region : Str
deriving DecidableEq

/-- `GetRegistryURL`. -/
def GetRegistryURL (c : Client) : Str :=
  c.accountID ++ str ".dkr.ecr." ++ c.region ++ str ".amazonaws.com"

/-- Lowercase-alphanumeric character class `[a-z0-9]` of the ECR naming
regex. -/
def isLowerAlnum (c : Char) : Bool :=
  ('a' ≤ c && c ≤ 'z') || ('0' ≤ c && c ≤ '9')

/-- Separator character class `[._-]` of the ECR naming regex. -/
def isSepChar (c : Char) : Bool := c = '.' || c = '_' || c = '-'

mutual

/-- Recognizer for one segment of the ECR repository-name regex,
`[a-z0-9]+(?:[._-][a-z0-9]+)*`: the segment must begin with an
alphanumeric character. -/
def validSegFrom : Str → Bool
  | [] => false
  | c :: cs => isLowerAlnum c && validSegRest cs

/-- After at least one alphanumeric character: more alphanumerics may
follow, or a separator which must again be followed by `[a-z0-9]+`. -/
def validSegRest : Str → Bool
  | [] => true
  | c :: cs => if isLowerAlnum c then validSegRest cs
               else isSepChar c && validSegFrom cs

end

/-- `validateECRRepositoryName`, returned as a `Bool` (`true` = valid):
the source matches the name against the anchored regex
`(?:[a-z0-9]+(?:[._-][a-z0-9]+)*/)*[a-z0-9]+(?:[._-][a-z0-9]+)*`
between hats and dollars; since a segment can never contain a slash,
that regex accepts exactly the strings all of whose slash-separated
components match the segment grammar (the empty string splits into one
empty component, which the segment grammar rejects, as the regex does).
`regexp.MatchString` on this constant pattern never returns a non-nil
error, so the function's error result reduces to this boolean. -/
def validateECRRepositoryName (name : Str) : Bool :=
  (splitOnChar '/' name).all validSegFrom

/-- The repository-path components computed by `ConvertImageName`:
split the (digest-stripped) reference on slashes, drop a leading
registry host (a first component containing a dot or colon, or equal to
the local-registry host name) when more components follow, and fall
back to the whole reference if nothing remains. -/
def convertParts (image : Str) : List Str :=
  -- Split into parts
  let parts := splitOnChar '/' image
  -- First part might be a registry: contains dots, colons, or equals
  -- the literal host name for local registries
  let startIdx :=
    match parts with
    | first :: _ :: _ =>
        if first.contains '.' || first.contains ':' ||
           first = str "localhost" then 1 else 0
    | _ => 0
  -- (the source's `len(parts) == 2 && startIdx == 1` branch re-assigns
  -- `startIdx` to its current value and is a no-op)
  -- Repository path (excluding registry)
  let repoParts0 := parts.drop startIdx
  if repoParts0.isEmpty then [image] else repoParts0

/-- The pure core of `ConvertImageName`: everything before the
validation step, returning the ECR repository name (with its `pfx`
prepended) and the resolved tag. -/
def convertRepoTag (originalImage pfx : Str) : Str × Str :=
  -- Extract digest if present
  let pr :=
    match indexOfSub (str "@sha256:") originalImage with
    | some i => (originalImage.take i,
                 originalImage.drop (i + (str "@sha256:").length))
    | none => (originalImage, ([] : Str))
  let image := pr.1
  let digest := pr.2
  let repoParts1 := convertParts image
  -- Extract tag from last part
  let last := repoParts1.getLastD []
  let nt :=
    match lastIndexOfChar ':' last with
    | some idx => (last.take idx, last.drop (idx + 1))
    | none => (last, ([] : Str))
  let name := nt.1
  let tag0 := nt.2
  -- Update last part
  let repoParts2 := repoParts1.dropLast ++ [name]
  -- Determine tag: latest if none, or deterministic short digest
  let tag :=
    if tag0.isEmpty then
      if !digest.isEmpty then str "sha-" ++ digest.take 12
      else str "latest"
    else tag0
  -- ECR repo name: pfx + full path (excluding registry), lowercased
  -- with ':' and '@' replaced by '-'
  let repoPath := joinSlash repoParts2
  let normalizedPath :=
    (repoPath.map Char.toLower).map
      (fun ch => if ch = ':' then '-' else if ch = '@' then '-' else ch)
  (pfx ++ '/' :: normalizedPath, tag)

/-- `ConvertImageName`: translates a source image reference into the
target ECR reference and repository name, or an error when the
repository name violates the ECR naming rules. -/
def ConvertImageName (c : Client) (originalImage pfx : Str) :
    Except Str (Str × Str) :=
  let rt := convertRepoTag originalImage pfx
  let fullRepoName := rt.1
  let tag := rt.2
  if validateECRRepositoryName fullRepoName then
    .ok (GetRegistryURL c ++ '/' :: fullRepoName ++ ':' :: tag,
         fullRepoName)
  else
    .error (str "repository name does not match ECR naming rules")

/-! ## `cmd/push.go`: options, jobs, executor, worker pool, aggregator -/

/-- `PushOptions` (flag values of the push command). -/
structure PushOptions where
  allNamespaces : Bool
  region : Str
  repositoryPfx : Str
  namespace1 : Str
  dryRun : Bool
  platform : Str
  skipExisting : Bool
  includeNamespaces : List Str
  excludeNamespaces : List Str
  includePatterns : List Str
  excludePatterns : List Str
  maxConcurrent : Nat

/-- `ImageJob`: a single image processing job. -/
structure ImageJob where
  index : Nat
  total : Nat
  image : Str
  targetImage : Str
  repoName : Str
deriving DecidableEq

/-- `JobResult`: the result of processing an image job. -/
structure JobResult where
  job : ImageJob
  error : Option Str
  skipped : Bool
deriving DecidableEq

/-- External collaborators of the pipeline, as oracles: construction of
the two clients, image discovery, authentication, the regex engine, and
the three remote calls made by the job executor. -/
structure Env where
  newECRClient : Except Str Client
  newK8sClient : Except Str Unit
  listPodImages : Except Str (List Str)
  getAuthToken : Except Str (Str × Str)
  oracle : RegexOracle
  createRepository : Str → Except Str Unit
  imageTagExists : Str → Str → Except Str Bool
  mirror : Str → Str → Str → Except Str Unit

/-- The tag extraction inside `processImageJob`: the substring after
the last colon of the target reference, empty when there is no colon
(Go initializes `tag` to `""` and only overwrites it when
`strings.LastIndex` finds one). -/
def extractTagAfterColon (s : Str) : Str :=
  match lastIndexOfChar ':' s with
  | some idx => s.drop (idx + 1)
  | none => []

/-- `processImageJob`: create the repository, optionally check whether
the target tag already exists (skip-existing), else mirror.  Returns
the Go pair `(error, skipped)`. -/
def processImageJob (env : Env) (opts : PushOptions) (job : ImageJob) :
    Option Str × Bool :=
  match env.createRepository job.repoName with
  | .error e =>
      (some (str "failed to create repository " ++ job.repoName ++
             str ": " ++ e), false)
  | .ok _ =>
      let mirrorStep := fun (_ : Unit) =>
        match env.mirror job.image job.targetImage opts.platform with
        | .error e =>
            (some (str "mirror failed " ++ job.image ++ str " -> " ++
                   job.targetImage ++ str ": " ++ e), false)
        | .ok _ => ((none : Option Str), false)
      if opts.skipExisting then
        -- Extract tag from targetImage (after last colon)
        let tag := extractTagAfterColon job.targetImage
        if tag ≠ [] then
          match env.imageTagExists job.repoName tag with
          | .error e =>
              (some (str "could not check existing tag for " ++
                     job.repoName ++ ':' :: tag ++ str ": " ++ e), false)
          | .ok true => (none, true) -- Skipped, not an error
          | .ok false => mirrorStep ()
        else mirrorStep ()
      else mirrorStep ()

/-- The job-preparation loop at the top of `processImagesConcurrently`:
`i` is the 0-based loop index over the input images, `total` the input
image count; images whose translation fails are reported and skipped. -/
def buildJobsAux (c : Client) (pfx : Str) (total : Nat) :
    Nat → List Str → List ImageJob
  | _, [] => []
  | i, img :: rest =>
      match ConvertImageName c img pfx with
      | .error _ => buildJobsAux c pfx total (i + 1) rest
      | .ok tr =>
          ⟨i + 1, total, img, tr.1, tr.2⟩ ::
            buildJobsAux c pfx total (i + 1) rest

/-- The jobs built by `processImagesConcurrently` from an image list. -/
def buildJobs (c : Client) (images : List Str) (pfx : Str) :
    List ImageJob :=
  buildJobsAux c pfx images.length 0 images

/-- A worker's contribution for one dequeued job: the `JobResult` it
sends on the result channel (`worker` in the source). -/
def execJob (env : Env) (opts : PushOptions) (j : ImageJob) : JobResult :=
  let r := processImageJob env opts j
  ⟨j, r.1, r.2⟩

/-- One step of the result-collection loop of
`processImagesConcurrently`: counters are `(success, error, skipped)`,
and skipped results are classified before errored ones, as in the
source. -/
def aggStep (acc : Nat × Nat × Nat) (r : JobResult) : Nat × Nat × Nat :=
  if r.skipped then (acc.1, acc.2.1, acc.2.2 + 1)
  else if r.error.isSome then (acc.1, acc.2.1 + 1, acc.2.2)
  else (acc.1 + 1, acc.2.1, acc.2.2)

/-- The result-collection loop: fold `aggStep` over the received
results in arrival order. -/
def aggregateResults (rs : List JobResult) : Nat × Nat × Nat :=
  rs.foldl aggStep (0, 0, 0)

/-! ### The worker pool as a transition system

`processImagesConcurrently` starts `opts.MaxConcurrent` workers over a
FIFO job channel and one result channel.  The uncancelled semantics is
modelled as a small-step relation: a state holds the not-yet-dequeued
jobs in channel order, one slot per worker (`none` = blocked on
receive, `some job` = executing `job`), and the results sent so far;
`taken` records the sequence of channel receives, in order. -/

/-- A state of the worker pool. -/
structure SchedState where
  pending : List ImageJob
  workers : List (Option ImageJob)
  results : List JobResult
  taken : List ImageJob
deriving DecidableEq

/-- The jobs currently being executed (busy worker slots). -/
def busyJobs (s : SchedState) : List ImageJob := s.workers.filterMap id

/-- One scheduler transition, parameterized by the executor
`exec : ImageJob → Option Str × Bool` (instantiated with
`processImageJob env opts`): an idle worker receives the job at the
head of the channel, or a busy worker finishes its job and sends
`JobResult{Job: job, Error: err, Skipped: skipped}` on the result
channel, exactly as `worker` does. -/
inductive SchedStep (exec : ImageJob → Option Str × Bool) :
    SchedState → SchedState → Prop where
  | dispatch (s : SchedState) (i : Nat) (job : ImageJob)
      (rest : List ImageJob)
      (hw : s.workers.get? i = some none)
      (hp : s.pending = job :: rest) :
      SchedStep exec s
        ⟨rest, s.workers.set i (some job), s.results, s.taken ++ [job]⟩
  | complete (s : SchedState) (i : Nat) (job : ImageJob)
      (hw : s.workers.get? i = some (some job)) :
      SchedStep exec s
        ⟨s.pending, s.workers.set i none,
         s.results ++ [⟨job, (exec job).1, (exec job).2⟩], s.taken⟩

/-- The initial state: every job queued (the job channel is buffered
with capacity `len(jobs)`, so the producer enqueues them all), `c`
idle workers, nothing received yet. -/
def initState (jobs : List ImageJob) (c : Nat) : SchedState :=
  ⟨jobs, List.replicate c none, [], []⟩

/-- States the pool can reach from the initial state. -/
def Reachable (exec : ImageJob → Option Str × Bool)
    (jobs : List ImageJob) (c : Nat) (s : SchedState) : Prop :=
  Relation.ReflTransGen (SchedStep exec) (initState jobs c) s

/-- A finished run: the channel is drained and every worker is idle
(`wg.Wait` has returned and the result channel is closed). -/
def Terminal (s : SchedState) : Prop := s.pending = [] ∧ busyJobs s = []

/-- The value returned by `processImagesConcurrently` together with the
final counters: the Go function's only return statement is `return
nil`, and any complete schedule yields the same counters as processing
the jobs in order (proved below), which is how the counters are
computed here. -/
def processImagesConcurrentlyModel (env : Env) (opts : PushOptions)
    (client : Client) (images : List Str) :
    (Nat × Nat × Nat) × Except Str Unit :=
  let jobs := buildJobs client images opts.repositoryPfx
  (aggregateResults (jobs.map (execJob env opts)), .ok ())

/-- `runPush`: the pipeline driver.  Setup steps (ECR client,
Kubernetes client, image listing, filtering, authentication) propagate
their errors with the source's wrapping; the concurrent phase's return
value is folded in at the end. -/
def runPush (env : Env) (opts : PushOptions) : Except Str Unit :=
  match env.newECRClient with
  | .error e => .error (str "creating ECR client: " ++ e)
  | .ok ecrClient =>
  match env.newK8sClient with
  | .error e => .error (str "creating Kubernetes client: " ++ e)
  | .ok _ =>
  match env.listPodImages with
  | .error e => .error (str "listing pod images: " ++ e)
  | .ok images =>
  let uniqueImages := RemoveDuplicates images
  match FilterImages env.oracle uniqueImages opts.includePatterns
      opts.excludePatterns with
  | .error e => .error (str "invalid include/exclude patterns: " ++ e)
  | .ok filtered =>
  match env.getAuthToken with
  | .error e => .error (str "getting ECR auth token: " ++ e)
  | .ok _ =>
  if opts.dryRun then .ok () -- the dry-run loop only prints
  else
    match (processImagesConcurrentlyModel env opts ecrClient
        filtered).2 with
    | .error e => .error (str "concurrent processing failed: " ++ e)
    | .ok _ => .ok ()

/-! ## Definitions taken from the specification's wording

These are NOT translations of the source; they restate claim-level
rules in the spec's words, to be compared against the code. -/

/-- The keep rule as the specification words it: an item is kept iff
`includes` (the raw pattern list) is empty or some include matcher
matches it, and no exclude matcher matches it. -/
def keptClaimC3 (o : RegexOracle) (includes excludes : List Str)
    (x : Str) : Bool :=
  (includes.isEmpty ||
    (compileMatchersList o includes).any fun m => matcherMatch m x) &&
  !((compileMatchersList o excludes).any fun m => matcherMatch m x)

/-- The suffix of `s` after the last occurrence of `c` (all of `s` when
`c` does not occur). -/
def afterLastChar (c : Char) : Str → Str
  | [] => []
  | x :: xs =>
      if c ∈ xs then afterLastChar c xs
      else if x = c then xs else x :: xs

/-- Tag resolution as the claim words it: an explicit tag in the source
reference wins; otherwise, if the reference carries a
`@sha256:<digest>` suffix, the tag is `sha-` followed by the first 12
characters of the digest; otherwise `latest`.  The explicit tag is what
follows the last colon of the reference's final slash-separated
component (once the digest suffix is removed). -/
def specTagC7 (image : Str) : Str :=
  let pr :=
    match indexOfSub (str "@sha256:") image with
    | some i => (image.take i, image.drop (i + (str "@sha256:").length))
    | none => (image, ([] : Str))
  let base := pr.1
  let digest := pr.2
  let lastComp := afterLastChar '/' base
  let expTag :=
    match lastIndexOfChar ':' lastComp with
    | some idx => lastComp.drop (idx + 1)
    | none => ([] : Str)
  if expTag ≠ [] then expTag
  else if digest ≠ [] then str "sha-" ++ digest.take 12
  else str "latest"

/-- `Except.isOk` as a plain boolean. -/
def exIsOk {α : Type} : Except Str α → Bool
  | .ok _ => true
  | .error _ => false

/-! ## Helper lemmas: filtering -/

/-- The per-image loop of `FilterImages` is `List.filter` with the keep
predicate stated over the compiled matcher lists. -/
theorem filterLoop_eq_filter (inc exc : List GoMatcher) (l : List Str) :
    filterLoop inc exc l =
      l.filter fun x =>
        (inc.isEmpty || inc.any fun m => matcherMatch m x) &&
        !(exc.any fun m => matcherMatch m x) := by
  induction l with
  | nil => rfl
  | cons img rest ih =>
    simp only [filterLoop, ih, List.filter_cons]
    cases inc with
    | nil =>
      simp only [List.isEmpty_nil, List.length_nil, List.any_nil,
        Bool.true_or, Bool.true_and]
      by_cases hexc : (exc.any fun m => matcherMatch m img) = true <;>
        simp [hexc]
    | cons m ms =>
      by_cases hany : ((m :: ms).any fun mm => matcherMatch mm img) = true <;>
        by_cases hexc : (exc.any fun mm => matcherMatch mm img) = true <;>
          simp [hany, hexc]

/-- A fixed concrete client used by concrete instances below (account
and region only feed the registry host string). -/
def clientK : Client := ⟨str "123456789012", str "eu-west-1"⟩

/-! ## Claim C3 -/

/-- Claim C3, counterexample: with `includes = [" "]` (a pattern that
trims to the empty string, so it compiles to no matcher at all),
`FilterImages` keeps `"x"`, while the claim's rule — `includes` is
empty or some include matcher matches — keeps nothing, because the raw
`includes` list is non-empty and there is no include matcher. -/
theorem C3_counterexample :
    FilterImages (fun _ => none) [str "x"] [str " "] [] ≠
      Except.ok (([str "x"]).filter
        (keptClaimC3 (fun _ => none) [str " "] [])) := by
  intro h
  have h2 : ([str "x"] : List Str) = [] := by
    have h1 : (Except.ok [str "x"] : Except Str (List Str)) =
        Except.ok [] := h
    injection h1
  exact absurd h2 (by decide)

/-- Claim C3 (amended): `FilterImages` keeps exactly the items `x` such
that (the compiled include matcher list is empty or some include
matcher matches `x`) and no exclude matcher matches `x`, preserving
input order; in particular an item matched by both an include and an
exclude matcher is excluded (the conjunction makes the exclusion
unconditional). -/
theorem C3_filter_semantics (o : RegexOracle)
    (images includes excludes : List Str) :
    FilterImages o images includes excludes =
      Except.ok (images.filter fun x =>
        ((compileMatchersList o includes).isEmpty ||
          (compileMatchersList o includes).any fun m => matcherMatch m x) &&
        !((compileMatchersList o excludes).any fun m => matcherMatch m x)) := by
  show Except.ok (filterLoop (compileMatchersList o includes)
    (compileMatchersList o excludes) images) = _
  rw [filterLoop_eq_filter]

/-! ## Claim C4 -/

/-- Claim C4: image filtering never fails — `FilterImages` returns `ok`
for every oracle, image list and pattern lists — and a (trimmed,
non-empty) pattern that does not compile as a regular expression
becomes a literal prefix matcher for that pattern. -/
theorem C4_never_errors (o : RegexOracle)
    (images includes excludes : List Str) (p : Str)
    (h1 : trimSpace p ≠ []) (h2 : o (trimSpace p) = none) :
    exIsOk (FilterImages o images includes excludes) = true ∧
    compileMatchersList o [p] = [.pre (trimSpace p)] := by
  refine ⟨rfl, ?_⟩
  unfold compileMatchersList
  simp [h1, h2]
  rfl

/-- Claim C4, witness: the pattern `"("` does not compile as a regex
(modelled by the always-failing oracle) and degrades to a literal
prefix matcher; filtering still succeeds. -/
theorem C4_witness :
    exIsOk (FilterImages (fun _ => none) [str "a"] [str "("] []) = true ∧
    compileMatchersList (fun _ => none) [str "("] = [.pre (str "(")] :=
  C4_never_errors (fun _ => none) [str "a"] [str "("] [] (str "(")
    (by decide) rfl

/-! ## Claim C10 -/

/-- Claim C10: a pattern that trims to the empty string is discarded
when matchers are compiled, so `FilterImages images includes [p]` with
such a `p` equals `FilterImages images includes []` for every oracle
and every image list. -/
theorem C10_empty_pattern_discarded (o : RegexOracle)
    (images includes : List Str) (p : Str) (h : trimSpace p = []) :
    compileMatchersList o [p] = [] ∧
    FilterImages o images includes [p] =
      FilterImages o images includes [] := by
  have hc : compileMatchersList o [p] = [] := by
    unfold compileMatchersList
    simp [h]
    rfl
  refine ⟨hc, ?_⟩
  show Except.ok (filterLoop (compileMatchersList o includes)
      (compileMatchersList o [p]) images) = _
  rw [hc]
  rfl

/-- Claim C10, witness: the literal empty pattern is discarded as an
exclude. -/
theorem C10_witness :
    compileMatchersList (fun _ => none) [str ""] = [] ∧
    FilterImages (fun _ => none) [str "a"] [] [str ""] =
      FilterImages (fun _ => none) [str "a"] [] [] :=
  C10_empty_pattern_discarded (fun _ => none) [str "a"] [] (str "") rfl

/-! ## Claim C5 -/

/-- The job-preparation loop, characterized as a `filterMap` over the
input images paired with their 0-based positions from `i` on. -/
theorem buildJobsAux_eq (c : Client) (pfx : Str) (total : Nat) :
    ∀ (l : List Str) (i : Nat),
      buildJobsAux c pfx total i l =
        (List.enumFrom i l).filterMap fun pr =>
          match ConvertImageName c pr.2 pfx with
          | .ok tr => some ⟨pr.1 + 1, total, pr.2, tr.1, tr.2⟩
          | .error _ => none
  | [], _ => rfl
  | img :: rest, i => by
      simp only [buildJobsAux, List.enumFrom, List.filterMap_cons]
      cases h : ConvertImageName c img pfx with
      | ok tr => simp [h, buildJobsAux_eq c pfx total rest (i + 1)]
      | error e => simp [h, buildJobsAux_eq c pfx total rest (i + 1)]

/-- Claim C5, counterexample: with inputs `["bad/../name",
"nginx:1.25"]` and prefix `"krane"` the first image fails translation,
so only one job is built — but that job carries `Total = 2` (the input
image count) and `Index = 2` (its input position), not the built-job
count 1 the claim requires. -/
theorem C5_counterexample :
    (buildJobs clientK [str "bad/../name", str "nginx:1.25"]
      (str "krane")).length = 1 ∧
    (buildJobs clientK [str "bad/../name", str "nginx:1.25"]
      (str "krane")).map ImageJob.total = [2] ∧
    (buildJobs clientK [str "bad/../name", str "nginx:1.25"]
      (str "krane")).map ImageJob.index = [2] :=
  ⟨rfl, rfl, rfl⟩

/-- Claim C5 (amended): every built `MirrorJob` carries a 1-based index
into the INPUT image list and a total equal to the number of input
images (including images whose translation fails); translation failures
never become jobs (they are dropped by the `filterMap`, after a printed
warning not modelled here). -/
theorem C5_jobs_characterization (c : Client) (images : List Str)
    (pfx : Str) :
    buildJobs c images pfx =
      (List.enum images).filterMap fun pr =>
        match ConvertImageName c pr.2 pfx with
        | .ok tr => some ⟨pr.1 + 1, images.length, pr.2, tr.1, tr.2⟩
        | .error _ => none :=
  buildJobsAux_eq c pfx images.length images 0

/-! ## Helper lemmas: the split/last-component correspondence -/

/-- `strings.Split` never produces an empty list of fields. -/
theorem splitOnCharAux_ne_nil (c : Char) :
    ∀ (s acc : Str), splitOnCharAux c s acc ≠ []
  | [], acc => by simp [splitOnCharAux]
  | x :: xs, acc => by
      unfold splitOnCharAux
      split
      · simp
      · exact splitOnCharAux_ne_nil c xs (x :: acc)

/-- `strings.Split` never produces an empty list of fields. -/
theorem splitOnChar_ne_nil (c : Char) (s : Str) : splitOnChar c s ≠ [] :=
  splitOnCharAux_ne_nil c s []

/-- `getLastD` of a non-empty list does not depend on the default. -/
theorem getLastD_of_ne_nil {α : Type} :
    ∀ (l : List α) (d1 d2 : α), l ≠ [] → l.getLastD d1 = l.getLastD d2
  | [], _, _, h => absurd rfl h
  | _ :: l, d1, d2, _ => by rw [List.getLastD_cons, List.getLastD_cons]

/-- When `c` does not occur, the suffix after the last `c` is the whole
string. -/
theorem afterLastChar_of_not_mem (c : Char) :
    ∀ (s : Str), c ∉ s → afterLastChar c s = s
  | [], _ => rfl
  | x :: xs, h => by
      have hx : ¬x = c := fun he => h (by simp [he])
      have hxs : c ∉ xs := fun hm => h (List.mem_cons_of_mem _ hm)
      unfold afterLastChar
      simp [hx, hxs]

/-- The last field of `strings.Split` (with accumulator) is the suffix
after the last separator, or the pending field when no separator
occurs. -/
theorem splitOnCharAux_getLastD (c : Char) (d : Str) :
    ∀ (s acc : Str),
      (splitOnCharAux c s acc).getLastD d =
        if c ∈ s then afterLastChar c s else acc.reverse ++ s
  | [], acc => by simp [splitOnCharAux]
  | x :: xs, acc => by
      unfold splitOnCharAux
      by_cases hx : x = c
      · subst hx
        rw [if_pos rfl, if_pos (List.mem_cons_self x xs),
          List.getLastD_cons,
          getLastD_of_ne_nil _ acc.reverse d (splitOnCharAux_ne_nil x xs []),
          splitOnCharAux_getLastD x d xs []]
        by_cases hm : x ∈ xs
        · simp [afterLastChar, hm]
        · simp [afterLastChar, hm]
      · rw [if_neg hx, splitOnCharAux_getLastD c d xs (x :: acc)]
        have hmem : (c ∈ x :: xs) ↔ c ∈ xs := by
          constructor
          · intro hm
            rcases List.mem_cons.1 hm with he | hm2
            · exact absurd he.symm hx
            · exact hm2
          · exact fun hm => List.mem_cons_of_mem _ hm
        by_cases hm : c ∈ xs
        · rw [if_pos hm, if_pos (hmem.2 hm)]
          simp [afterLastChar, hm]
        · rw [if_neg hm, if_neg (fun h2 => hm (hmem.1 h2))]
          have hxc : ¬x = c := hx
          simp [afterLastChar, hm, hxc, List.reverse_cons,
            List.append_assoc]

/-- The last field of `strings.Split s c` is the suffix of `s` after
the last occurrence of `c`. -/
theorem splitOnChar_getLastD (c : Char) (s : Str) (d : Str) :
    (splitOnChar c s).getLastD d = afterLastChar c s := by
  unfold splitOnChar
  rw [splitOnCharAux_getLastD]
  by_cases h : c ∈ s
  · rw [if_pos h]
  · rw [if_neg h, afterLastChar_of_not_mem c s h]
    rfl

/-- The repository-path components are never empty. -/
theorem convertParts_ne_nil (image : Str) : convertParts image ≠ [] := by
  unfold convertParts
  dsimp only
  split
  · simp
  · next h =>
      simp only [List.isEmpty_iff] at h
      exact h

/-- The first two-or-more cons cells of a list do not change its
`getLastD` when the head is removed. -/
theorem getLastD_cons_cons {α : Type} (a b : α) (l : List α) (d : α) :
    (a :: b :: l).getLastD d = (b :: l).getLastD d := by
  rw [List.getLastD_cons]
  exact getLastD_of_ne_nil _ a d (by simp)

/-- Dropping the registry host never drops the final path component:
the last repository-path component is the suffix of the reference after
its last slash. -/
theorem convertParts_getLastD (image : Str) :
    (convertParts image).getLastD [] = afterLastChar '/' image := by
  have hlast := splitOnChar_getLastD '/' image []
  unfold convertParts
  dsimp only
  rcases hp : splitOnChar '/' image with _ | ⟨first, rest0⟩
  · exact absurd hp (splitOnChar_ne_nil '/' image)
  · rw [hp] at hlast
    rcases rest0 with _ | ⟨second, rest⟩
    · simpa using hlast
    · dsimp only
      by_cases hc : (first.contains '.' || first.contains ':' ||
          decide (first = str "localhost")) = true
      · rw [if_pos hc]
        simp only [List.drop_succ_cons, List.drop_zero,
          List.isEmpty_cons, if_neg, Bool.false_eq_true,
          not_false_eq_true]
        rw [← hlast, getLastD_cons_cons]
      · rw [if_neg hc]
        simp only [List.drop_zero, List.isEmpty_cons,
          Bool.false_eq_true, not_false_eq_true, if_neg]
        exact hlast

/-- The tag computed by `ConvertImageName` is exactly the
specification's tag-resolution rule. -/
theorem convertRepoTag_tag (image pfx : Str) :
    (convertRepoTag image pfx).2 = specTagC7 image := by
  unfold convertRepoTag specTagC7
  cases hd : indexOfSub (str "@sha256:") image with
  | some i =>
      dsimp only
      rw [convertParts_getLastD]
      cases ht : lastIndexOfChar ':' (afterLastChar '/' (image.take i)) with
      | some idx =>
          dsimp only
          by_cases h0 : (afterLastChar '/' (image.take i)).drop (idx + 1) = []
          · by_cases h1 :
                image.drop (i + (str "@sha256:").length) = [] <;>
              simp [h0, h1, List.isEmpty_iff]
          · simp [h0, List.isEmpty_iff]
      | none =>
          dsimp only
          by_cases h1 : image.drop (i + (str "@sha256:").length) = [] <;>
            simp [h1, List.isEmpty_iff]
  | none =>
      dsimp only
      rw [convertParts_getLastD]
      cases ht : lastIndexOfChar ':' (afterLastChar '/' image) with
      | some idx =>
          dsimp only
          by_cases h0 : (afterLastChar '/' image).drop (idx + 1) = [] <;>
            simp [h0, List.isEmpty_iff]
      | none => simp

/-! ## Claim C7 -/

/-- Claim C7: `ConvertImageName` is a pure Lean function here, so it is
deterministic by construction; whenever it succeeds, the target
reference it returns is the registry host, the repository name, and a
tag resolved by the claim's rule (`specTagC7`): an explicit tag wins,
else a `@sha256:` digest yields `sha-` plus the digest's first 12
characters, else `latest`. -/
theorem C7_tag_resolution (c : Client) (image pfx : Str)
    (out : Str × Str)
    (h : ConvertImageName c image pfx = .ok out) :
    out.1 = GetRegistryURL c ++ '/' :: out.2 ++ ':' :: specTagC7 image := by
  unfold ConvertImageName at h
  dsimp only at h
  split at h
  · injection h with h1
    rw [← h1]
    dsimp only
    rw [convertRepoTag_tag]
  · exact absurd h (by simp)

/-- The digest-only busybox reference used in concrete instances. -/
def imgB : Str :=
  str "docker.io/library/busybox@sha256:aaaaaaaaaaaaaaaaaaaaaaaaaaaaaaaaaaaaaaaaaaaaaaaaaaaaaaaaaaaaaaaa"

/-- The translation of `imgB` under prefix `krane` and client
`clientK`. -/
def outB : Str × Str :=
  (str "123456789012.dkr.ecr.eu-west-1.amazonaws.com/krane/library/busybox:sha-aaaaaaaaaaaa",
   str "krane/library/busybox")

/-- Claim C7, witness: the digest-only busybox reference resolves to
tag `sha-aaaaaaaaaaaa`. -/
theorem C7_witness :
    outB.1 = GetRegistryURL clientK ++ '/' :: outB.2 ++ ':' ::
      specTagC7 imgB :=
  C7_tag_resolution clientK imgB (str "krane") outB rfl

/-! ## Claim C8 -/

/-- Claim C8: `ConvertImageName` returns an error exactly when the
constructed repository name (prefix, slash, lowercased normalized path)
violates the ECR naming grammar, and on the claim's concrete inputs:
`nginx:1.25` maps to repository `krane/nginx` with tag `1.25`, the
64-hex digest-only busybox reference to `krane/library/busybox` with
tag `sha-aaaaaaaaaaaa`, and `bad/../name` fails translation. -/
theorem C8_validation :
    (∀ (c : Client) (image pfx : Str),
      exIsOk (ConvertImageName c image pfx) =
        validateECRRepositoryName (convertRepoTag image pfx).1) ∧
    ConvertImageName clientK (str "nginx:1.25") (str "krane") =
      .ok (str "123456789012.dkr.ecr.eu-west-1.amazonaws.com/krane/nginx:1.25",
           str "krane/nginx") ∧
    ConvertImageName clientK imgB (str "krane") = .ok outB ∧
    exIsOk (ConvertImageName clientK (str "bad/../name") (str "krane")) =
      false := by
  refine ⟨?_, rfl, rfl, rfl⟩
  intro c image pfx
  unfold ConvertImageName exIsOk
  dsimp only
  by_cases h : validateECRRepositoryName (convertRepoTag image pfx).1 =
      true
  · rw [if_pos h, h]
  · rw [if_neg h]
    exact (Bool.eq_false_iff.2 (fun h2 => h h2)).symm

/-! ## Claim C6 -/

/-- Claim C6: with skip-existing enabled, a non-empty extracted target
tag and a successful repository-creation step, a positive
tag-existence answer makes the job's outcome `skipped` (no error), and
a failing tag-existence check makes it a failure — in both cases for
EVERY mirror function, so the mirror-copy step is never consulted. -/
theorem C6_skip_existing (env : Env) (opts : PushOptions)
    (job : ImageJob) (t : Str)
    (hskip : opts.skipExisting = true)
    (hcr : env.createRepository job.repoName = .ok ())
    (ht : extractTagAfterColon job.targetImage = t)
    (htne : t ≠ []) :
    (env.imageTagExists job.repoName t = .ok true →
      ∀ (m : Str → Str → Str → Except Str Unit),
        processImageJob { env with mirror := m } opts job =
          (none, true)) ∧
    (∀ (e : Str), env.imageTagExists job.repoName t = .error e →
      ∀ (m : Str → Str → Str → Except Str Unit),
        processImageJob { env with mirror := m } opts job =
          (some (str "could not check existing tag for " ++
                 job.repoName ++ ':' :: t ++ str ": " ++ e), false)) := by
  constructor
  · intro hex m
    unfold processImageJob
    dsimp only
    rw [hcr, hskip, ht, if_pos htne, hex]
    rfl
  · intro e hex m
    unfold processImageJob
    dsimp only
    rw [hcr, hskip, ht, if_pos htne, hex]
    rfl

/-- Claim C6, witness: a concrete all-ok environment whose destination
reports the tag as existing, with a mirror function that would fail if
it were ever called: the outcome is skipped. -/
theorem C6_witness :
    processImageJob
      { newECRClient := .ok clientK, newK8sClient := .ok (),
        listPodImages := .ok [], getAuthToken := .ok (str "u", str "p"),
        oracle := fun _ => none, createRepository := fun _ => .ok (),
        imageTagExists := fun _ _ => .ok true,
        mirror := fun _ _ _ => .error (str "mirror must not run") }
      { allNamespaces := false, region := str "eu-west-1",
        repositoryPfx := str "krane", namespace1 := str "",
        dryRun := false, platform := str "", skipExisting := true,
        includeNamespaces := [], excludeNamespaces := [],
        includePatterns := [], excludePatterns := [],
        maxConcurrent := 3 }
      ⟨1, 1, str "busybox",
       str "123456789012.dkr.ecr.eu-west-1.amazonaws.com/krane/busybox:latest",
       str "krane/busybox"⟩ = (none, true) :=
  (C6_skip_existing
    { newECRClient := .ok clientK, newK8sClient := .ok (),
      listPodImages := .ok [], getAuthToken := .ok (str "u", str "p"),
      oracle := fun _ => none, createRepository := fun _ => .ok (),
      imageTagExists := fun _ _ => .ok true,
      mirror := fun _ _ _ => .error (str "mirror must not run") }
    { allNamespaces := false, region := str "eu-west-1",
      repositoryPfx := str "krane", namespace1 := str "",
      dryRun := false, platform := str "", skipExisting := true,
      includeNamespaces := [], excludeNamespaces := [],
      includePatterns := [], excludePatterns := [],
      maxConcurrent := 3 }
    ⟨1, 1, str "busybox",
     str "123456789012.dkr.ecr.eu-west-1.amazonaws.com/krane/busybox:latest",
     str "krane/busybox"⟩
    (str "latest") rfl rfl rfl (by decide)).1 rfl
    (fun _ _ _ => .error (str "mirror must not run"))

/-! ## Claim C9 -/

/-- Claim C9: the push run succeeds exactly when the four setup steps
(ECR client construction, Kubernetes client construction, image
listing, authentication) succeed — pattern processing can never fail,
and per-job outcomes (repository creation, tag checks, mirroring,
translation) never influence the returned error, since the right-hand
side does not mention those oracles. -/
theorem C9_setup_errors_only (env : Env) (opts : PushOptions) :
    exIsOk (runPush env opts) =
      (exIsOk env.newECRClient && exIsOk env.newK8sClient &&
       exIsOk env.listPodImages && exIsOk env.getAuthToken) := by
  obtain ⟨ec, k8, li, at1, o, cr, te, mi⟩ := env
  cases ec <;> cases k8 <;> cases li <;> cases at1 <;>
    cases hd : opts.dryRun <;>
      simp [runPush, exIsOk, processImagesConcurrentlyModel, hd,
        FilterImages, compileMatchers, Bind.bind, Except.bind]

/-! ## Helper lemmas: the worker-pool invariant -/

/-- All-idle worker slots carry no busy jobs. -/
theorem filterMap_id_replicate_none {α : Type} :
    ∀ (c : Nat), (List.replicate c (none : Option α)).filterMap id = []
  | 0 => rfl
  | c + 1 => by
      simp [List.replicate, List.filterMap_cons,
        filterMap_id_replicate_none c]

/-- Marking an idle slot busy adds exactly that job to the busy
multiset. -/
theorem filterMap_id_set_some {α : Type} :
    ∀ (ws : List (Option α)) (i : Nat) (a : α),
      ws.get? i = some none →
      List.Perm ((ws.set i (some a)).filterMap id)
        (a :: ws.filterMap id)
  | [], i, a, h => by simp at h
  | w :: rest, 0, a, h => by
      have hw : w = none := by
        simpa using h
      subst hw
      simp [List.filterMap_cons]
  | w :: rest, i + 1, a, h => by
      have h2 : rest.get? i = some none := by
        simpa using h
      have ih := filterMap_id_set_some rest i a h2
      cases w with
      | none =>
          simpa [List.filterMap_cons] using ih
      | some b =>
          simp only [List.set, List.filterMap_cons, id]
          exact (ih.cons b).trans (List.Perm.swap a b _)

/-- Marking a busy slot idle removes exactly its job from the busy
multiset. -/
theorem filterMap_id_set_none {α : Type} :
    ∀ (ws : List (Option α)) (i : Nat) (a : α),
      ws.get? i = some (some a) →
      List.Perm (ws.filterMap id)
        (a :: (ws.set i none).filterMap id)
  | [], i, a, h => by simp at h
  | w :: rest, 0, a, h => by
      have hw : w = some a := by
        simpa using h
      subst hw
      simp [List.filterMap_cons]
  | w :: rest, i + 1, a, h => by
      have h2 : rest.get? i = some (some a) := by
        simpa using h
      have ih := filterMap_id_set_none rest i a h2
      cases w with
      | none =>
          simpa [List.filterMap_cons] using ih
      | some b =>
          simp only [List.set, List.filterMap_cons, id]
          exact (ih.cons b).trans (List.Perm.swap a b _)

/-- The pool invariant: the worker count never changes, the received
jobs followed by the still-queued jobs are exactly the submitted jobs
in submission order, and the received jobs are (as a multiset) the jobs
whose results were already sent plus the jobs being executed. -/
def SchedInv (jobs : List ImageJob) (c : Nat) (s : SchedState) : Prop :=
  s.workers.length = c ∧
  s.taken ++ s.pending = jobs ∧
  List.Perm s.taken (s.results.map JobResult.job ++ busyJobs s)

/-- The invariant holds initially. -/
theorem schedInv_init (jobs : List ImageJob) (c : Nat) :
    SchedInv jobs c (initState jobs c) := by
  refine ⟨List.length_replicate c none, rfl, ?_⟩
  show List.Perm [] ([] ++ (List.replicate c none).filterMap id)
  rw [filterMap_id_replicate_none]
  rfl

/-- Every scheduler step preserves the invariant. -/
theorem schedInv_step (exec : ImageJob → Option Str × Bool)
    (jobs : List ImageJob) (c : Nat) (s1 s2 : SchedState)
    (hstep : SchedStep exec s1 s2) (hinv : SchedInv jobs c s1) :
    SchedInv jobs c s2 := by
  obtain ⟨hlen, horder, hperm⟩ := hinv
  cases hstep with
  | dispatch i job rest hw hp =>
      refine ⟨by simpa [List.length_set] using hlen, ?_, ?_⟩
      · show (s1.taken ++ [job]) ++ rest = jobs
        rw [List.append_assoc, List.singleton_append, ← hp]
        exact horder
      · have hbusy := filterMap_id_set_some s1.workers i job hw
        have h1 : List.Perm (s1.taken ++ [job])
            ((s1.results.map JobResult.job ++ busyJobs s1) ++ [job]) :=
          hperm.append_right [job]
        have h4 : List.Perm
            ((s1.results.map JobResult.job ++ busyJobs s1) ++ [job])
            (s1.results.map JobResult.job ++ (job :: busyJobs s1)) := by
          rw [List.append_assoc]
          exact List.Perm.append_left _ (List.perm_append_singleton job _)
        have h5 : List.Perm
            (s1.results.map JobResult.job ++ (job :: busyJobs s1))
            (s1.results.map JobResult.job ++
              (s1.workers.set i (some job)).filterMap id) :=
          List.Perm.append_left _ hbusy.symm
        exact h1.trans (h4.trans h5)
  | complete i job hw =>
      refine ⟨by simpa [List.length_set] using hlen, horder, ?_⟩
      have hbusy := filterMap_id_set_none s1.workers i job hw
      have h2 : List.Perm
          (s1.results.map JobResult.job ++ busyJobs s1)
          (s1.results.map JobResult.job ++
            (job :: (s1.workers.set i none).filterMap id)) :=
        List.Perm.append_left _ hbusy
      show List.Perm s1.taken
        ((s1.results ++ [JobResult.mk job (exec job).1 (exec job).2]).map
           JobResult.job ++ (s1.workers.set i none).filterMap id)
      simp only [List.map_append, List.map_cons, List.map_nil]
      rw [List.append_assoc, List.singleton_append]
      exact hperm.trans h2

/-- The invariant holds in every reachable state. -/
theorem reachable_schedInv (exec : ImageJob → Option Str × Bool)
    (jobs : List ImageJob) (c : Nat) (s : SchedState)
    (h : Reachable exec jobs c s) : SchedInv jobs c s := by
  induction h with
  | refl => exact schedInv_init jobs c
  | tail h1 hstep ih =>
      exact schedInv_step exec jobs c _ _ hstep ih

/-- One aggregation step increments exactly one of the three counters. -/
theorem aggStep_sum (acc : Nat × Nat × Nat) (r : JobResult) :
    (aggStep acc r).1 + (aggStep acc r).2.1 + (aggStep acc r).2.2 =
      acc.1 + acc.2.1 + acc.2.2 + 1 := by
  unfold aggStep
  by_cases h1 : r.skipped = true <;>
    by_cases h2 : r.error.isSome = true <;>
      simp [h1, h2] <;> omega

/-- The three counters of the result-collection loop always sum to the
number of results received. -/
theorem foldl_aggStep_sum :
    ∀ (rs : List JobResult) (acc : Nat × Nat × Nat),
      (rs.foldl aggStep acc).1 + (rs.foldl aggStep acc).2.1 +
        (rs.foldl aggStep acc).2.2 =
      acc.1 + acc.2.1 + acc.2.2 + rs.length
  | [], acc => by simp
  | r :: rs, acc => by
      rw [List.foldl_cons, foldl_aggStep_sum rs (aggStep acc r),
        aggStep_sum acc r, List.length_cons]
      omega

/-! ## Claim C1 -/

/-- Claim C1: in any complete (uncancelled) run of the worker pool over
the jobs built from an image list, the aggregator receives exactly one
`JobResult` per built job — the received results' jobs are a
permutation of the built jobs, so none is dropped and none is invented
— and the final counters satisfy
`success + failed + skipped = number of jobs built`. -/
theorem C1_one_result_per_job (env : Env) (opts : PushOptions)
    (client : Client) (images : List Str) (c : Nat) (s : SchedState)
    (hreach : Reachable (processImageJob env opts)
      (buildJobs client images opts.repositoryPfx) c s)
    (hterm : Terminal s) :
    List.Perm (s.results.map JobResult.job)
      (buildJobs client images opts.repositoryPfx) ∧
    (aggregateResults s.results).1 + (aggregateResults s.results).2.1 +
      (aggregateResults s.results).2.2 =
      (buildJobs client images opts.repositoryPfx).length := by
  obtain ⟨hlen, horder, hperm⟩ :=
    reachable_schedInv (processImageJob env opts)
      (buildJobs client images opts.repositoryPfx) c s hreach
  obtain ⟨hpend, hbusy⟩ := hterm
  rw [hpend, List.append_nil] at horder
  rw [hbusy, List.append_nil] at hperm
  have hp2 : List.Perm (s.results.map JobResult.job)
      (buildJobs client images opts.repositoryPfx) := by
    rw [← horder]
    exact hperm.symm
  refine ⟨hp2, ?_⟩
  have hlen2 : s.results.length =
      (buildJobs client images opts.repositoryPfx).length := by
    rw [← List.length_map s.results JobResult.job]
    exact hp2.length_eq
  unfold aggregateResults
  rw [foldl_aggStep_sum]
  simpa using hlen2

/-- A concrete all-ok environment for the worker-pool witnesses. -/
def envW : Env :=
  { newECRClient := .ok clientK, newK8sClient := .ok (),
    listPodImages := .ok [], getAuthToken := .ok (str "u", str "p"),
    oracle := fun _ => none, createRepository := fun _ => .ok (),
    imageTagExists := fun _ _ => .ok false,
    mirror := fun _ _ _ => .ok () }

/-- Concrete push options (defaults of the push command). -/
def optsW : PushOptions :=
  { allNamespaces := false, region := str "eu-west-1",
    repositoryPfx := str "krane", namespace1 := str "",
    dryRun := false, platform := str "", skipExisting := false,
    includeNamespaces := [], excludeNamespaces := [],
    includePatterns := [], excludePatterns := [],
    maxConcurrent := 3 }

/-- The single job built from image `busybox` under prefix `krane`. -/
def jobW : ImageJob :=
  ⟨1, 1, str "busybox",
   str "123456789012.dkr.ecr.eu-west-1.amazonaws.com/krane/busybox:latest",
   str "krane/busybox"⟩

/-- State after the single worker dequeues `jobW`. -/
def sW1 : SchedState := ⟨[], [some jobW], [], [jobW]⟩

/-- State after the worker finishes `jobW` and sends its result. -/
def sW2 : SchedState := ⟨[], [none], [⟨jobW, none, false⟩], [jobW]⟩

/-- Claim C1, witness: a complete two-step run (dispatch, complete) of
one worker over the one job built from `["busybox"]`. -/
theorem C1_witness :
    List.Perm (sW2.results.map JobResult.job)
      (buildJobs clientK [str "busybox"] optsW.repositoryPfx) ∧
    (aggregateResults sW2.results).1 + (aggregateResults sW2.results).2.1 +
      (aggregateResults sW2.results).2.2 =
      (buildJobs clientK [str "busybox"] optsW.repositoryPfx).length := by
  have h01 : SchedStep (processImageJob envW optsW)
      (initState (buildJobs clientK [str "busybox"]
        optsW.repositoryPfx) 1) sW1 :=
    SchedStep.dispatch
      (initState (buildJobs clientK [str "busybox"]
        optsW.repositoryPfx) 1) 0 jobW [] rfl rfl
  have h12 : SchedStep (processImageJob envW optsW) sW1 sW2 :=
    SchedStep.complete sW1 0 jobW rfl
  have hreach : Reachable (processImageJob envW optsW)
      (buildJobs clientK [str "busybox"] optsW.repositoryPfx) 1 sW2 :=
    Relation.ReflTransGen.tail
      (Relation.ReflTransGen.tail Relation.ReflTransGen.refl h01) h12
  exact C1_one_result_per_job envW optsW clientK [str "busybox"] 1 sW2
    hreach ⟨rfl, rfl⟩

/-! ## Claim C2 -/

/-- Claim C2: for every concurrency limit `c ≥ 1`, every job list and
every executor, every reachable state of the worker pool has at most
`c` jobs in flight (there are only `c` worker slots), and the sequence
of dequeued jobs followed by the still-queued jobs is exactly the
submitted job list — jobs are dequeued in submission order. -/
theorem C2_bounded_concurrency (exec : ImageJob → Option Str × Bool)
    (jobs : List ImageJob) (c : Nat) (s : SchedState) (hc : 1 ≤ c)
    (hreach : Reachable exec jobs c s) :
    (busyJobs s).length ≤ c ∧ s.taken ++ s.pending = jobs := by
  obtain ⟨hlen, horder, _⟩ := reachable_schedInv exec jobs c s hreach
  refine ⟨?_, horder⟩
  have hle : (busyJobs s).length ≤ s.workers.length :=
    List.length_filterMap_le id s.workers
  rw [hlen] at hle
  exact hle

/-- Claim C2, witness: the initial state of three workers over the job
built from `["nginx:1.25"]`. -/
theorem C2_witness :
    (busyJobs (initState
      (buildJobs clientK [str "nginx:1.25"] (str "krane")) 3)).length ≤ 3 ∧
    (initState (buildJobs clientK [str "nginx:1.25"] (str "krane"))
        3).taken ++
      (initState (buildJobs clientK [str "nginx:1.25"] (str "krane"))
        3).pending =
      buildJobs clientK [str "nginx:1.25"] (str "krane") :=
  C2_bounded_concurrency (fun _ => (none, false))
    (buildJobs clientK [str "nginx:1.25"] (str "krane")) 3
    (initState (buildJobs clientK [str "nginx:1.25"] (str "krane")) 3)
    (by decide) Relation.ReflTransGen.refl

end krane
